import Mathlib

/-!
# Verification of the lnx index reader core

A shallow embedding of `engine/src/index/reader.rs` and
`engine/src/helpers.rs`:

* query-source selection and query construction (`parse_query`,
  `parse_fuzzy_query`, `parse_fast_fuzzy_query`, `parse_more_like_this`);
* the search executor (`search` with its `order_and_search!` /
  `process_search!` expansion);
* the indexing-side field corrector (`correct_doc_fields`);
* a state model of the concurrency gate driving `shutdown`.

External collaborators (tantivy's parser/collectors, the symspell
corrector `correct_sentence`, the stop-word provider, the `ahash` hash)
are taken as parameters or as opaque record fields, following the spec's
scope section.  Machine integers (`u64`, `i64`) are modelled as `Nat`/`Int`
(no arithmetic is performed on them in this core) and `f32`/`f64` scores
as `Rat` (only comparison with `0` occurs).
-/

namespace LnxEngine

/-- A tantivy `Field` is an index into the schema's field list. -/
abbrev Field := Nat

/-- A tantivy `Score` / boost weight (`f32` in the source; only compared
with `0`, so a `Rat` model is exact for the configured values). -/
abbrev Score := Rat

/-- A tantivy `DocAddress`, opaque to this core. -/
abbrev DocAddress := Nat

/-- The declared type of a schema field (tantivy `FieldType`, options
elided: only the constructor drives behaviour in this core). -/
inductive FieldType where
  | str
  | u64
  | i64
  | f64
  | date
  | facet
  | bytes
  deriving DecidableEq, Repr

/-- A tantivy `Schema`: an ordered list of named, typed fields. -/
structure Schema where
  fields : List (String × FieldType)
  deriving DecidableEq, Repr

/-- Embeds `Schema::get_field`: the index of the field with the given name. -/
def Schema.get_field (s : Schema) (name : String) : Option Field :=
  s.fields.findIdx? (fun p => p.1 == name)

/-- Embeds `Schema::get_field_entry(..).field_type()`: the declared type at a
field index (`none` when the index is out of bounds, which tantivy would
reject). -/
def Schema.fieldTypeOf (s : Schema) (f : Field) : Option FieldType :=
  (s.fields.get? f).map Prod.snd

/-- A stored tantivy `Value` (variants this core inspects; payloads of
the others are irrelevant to it). -/
inductive Value where
  | str (s : String)
  | u64 (n : Nat)
  | i64 (n : Int)
  | f64 (x : Rat)
  | date (d : Int)
  | bytes (bs : List Nat)
  deriving DecidableEq, Repr

/-- tantivy's `NamedFieldDocument`: field name to list of stored values
(the `BTreeMap<String, Vec<Value>>` behind `to_named_doc`). -/
structure NamedFieldDocument where
  entries : List (String × List Value)
  deriving DecidableEq, Repr

/-- First-match association lookup (the `Map::get` of the source's
maps, whose keys are unique). -/
def getAssoc {α β : Type} [DecidableEq α] (k : α) : List (α × β) → Option β
  | [] => none
  | p :: ps => if p.1 = k then some p.2 else getAssoc k ps

/-- Embeds `Map::remove`: the removed value (if any) and the remaining entries. -/
def removeKey {α β : Type} [DecidableEq α] (k : α) :
    List (α × β) → Option β × List (α × β)
  | [] => (none, [])
  | p :: ps =>
    if p.1 = k then (some p.2, ps)
    else
      let r := removeKey k ps
      (r.1, p :: r.2)

/-- Embeds `Map::insert`: replace the entry with this key, or append one. -/
def mapInsert {α β : Type} [DecidableEq α] (m : List (α × β)) (k : α) (v : β) :
    List (α × β) :=
  match m with
  | [] => [(k, v)]
  | p :: ps => if p.1 = k then (k, v) :: ps else p :: mapInsert ps k v

/-- Embeds tantivy's `IndexRecordOption`. -/
inductive IndexRecordOption where
  | basic
  | withFreqs
  | withFreqsAndPositions
  deriving DecidableEq, Repr

/-- Embeds `tantivy::query::Occur`. -/
inductive Occur where
  | should
  | must
  | mustNot
  deriving DecidableEq, Repr

/-- The closed sum of query shapes `parse_query` can build (the source's
boxed `dyn Query`).  `parsedDefault` stands for the pre-built, pre-weighted
`QueryParser` applied to a string; `parsedField` for a fresh
`QueryParser::for_index` scoped to one field, with its
`set_conjunction_by_default` flag recorded. -/
inductive Query where
  | empty
  | parsedDefault (text : String)
  | parsedField (field : Field) (conjunctive : Bool) (text : String)
  | term (field : Field) (text : String) (opt : IndexRecordOption)
  | fuzzyTerm (field : Field) (text : String) (distance : Nat) (prefixMatch : Bool)
  | boost (q : Query) (factor : Score)
  | boolean (clauses : List (Occur × Query))
  | moreLikeThis (minDocFrequency maxDocFrequency minTermFrequency : Nat)
      (minWordLen maxWordLen : Nat) (boostFactor : Score)
      (stopWords : List String) (doc : DocAddress)
  deriving Repr

/-- Embeds `BooleanQuery::intersection`: every sub-query becomes a `Must` clause. -/
def BooleanQuery.intersection (qs : List Query) : Query :=
  Query.boolean (qs.map (fun q => (Occur.must, q)))

/-- Modelled from the spec: `crate::structures::QueryMode` is not among the
source files; the spec gives `mode: enum {Normal, Fuzzy, MoreLikeThis}`. -/
inductive QueryMode where
  | normal
  | fuzzy
  | moreLikeThis
  deriving DecidableEq, Repr

/-- Modelled from the spec: `crate::structures::QueryPayload` is not among
the source files; the spec gives `query: optional string`, `map: mapping
field-name → query-string (empty if unused)`, `document: optional
reference-document identifier`, `mode`, `order_by: optional field name`,
`limit`, `offset`. -/
structure QueryPayload where
  query : Option String
  map : List (String × String)
  document : Option Nat
  mode : QueryMode
  order_by : Option String
  limit : Nat
  offset : Nat
  deriving DecidableEq, Repr

/-- The source's two-armed `Either` helper (reader.rs). -/
inductive Either (A B : Type) where
  | left (a : A)
  | right (b : B)
  deriving DecidableEq, Repr

/-- The query-source selection performed inline in
`IndexReaderHandler::search` (reader.rs, the
`match (payload.query.is_some(), payload.map.is_empty())` expression):
a present `query` wins, else a non-empty `map`, else no source. -/
def selectQuerySource (payload : QueryPayload) :
    Option (Either String (List (String × String))) :=
  match payload.query, payload.map.isEmpty with
  | some q, _ => some (Either.left q)
  | none, false => some (Either.right payload.map)
  | none, true => none

/-- C1: for every payload submitted to `search`, exactly one query source
is selected, by precedence: a provided `query` string wins over a
non-empty per-field `map`; with no `query` and a non-empty `map` the map
is used; with neither, no source is passed to the query builder. -/
theorem claim_c1 (p : QueryPayload) :
    (∀ q, p.query = some q → selectQuerySource p = some (Either.left q)) ∧
    (p.query = none → p.map ≠ [] → selectQuerySource p = some (Either.right p.map)) ∧
    (p.query = none → p.map = [] → selectQuerySource p = none) := by
  refine ⟨?_, ?_, ?_⟩
  · intro q hq
    simp [selectQuerySource, hq]
  · intro hq hm
    cases hmap : p.map with
    | nil => exact absurd hmap hm
    | cons a l => simp [selectQuerySource, hq, hmap]
  · intro hq hm
    simp [selectQuerySource, hq, hm]

/-- C1 at a concrete payload: a present query wins over a non-empty map. -/
theorem claim_c1_witness :
    selectQuerySource ⟨some "a", [("f", "b")], none, QueryMode.normal, none, 10, 0⟩ =
      some (Either.left "a") :=
  (claim_c1 ⟨some "a", [("f", "b")], none, QueryMode.normal, none, 10, 0⟩).1 "a" rfl

/-- The stop-word set membership check (`HashSet::contains` on the set the
stop-word provider returned), as a first-hit scan. -/
def hasWord (stopWords : List String) (w : String) : Bool :=
  match stopWords with
  | [] => false
  | s :: ss => if s = w then true else hasWord ss w

/-- The `for word in words.iter()` scan of `parse_fast_fuzzy_query` that
flips `ignore_stop_words` on the first word outside the stop-word set. -/
def anyNotStopWord (stopWords : List String) : List String → Bool
  | [] => false
  | w :: ws => if hasWord stopWords w then anyNotStopWord stopWords ws else true

/-- The flag `ignore_stop_words` as `parse_fast_fuzzy_query` computes it: `false`
unless stripping is on and the split produced more than one word, in which
case the scan above decides. -/
def ffIgnoreStopWords (stripStopWords : Bool) (stopWords words : List String) : Bool :=
  if stripStopWords = true ∧ 1 < words.length then anyNotStopWord stopWords words
  else false

/-- Splitting a character list at every space, keeping empty pieces
(the semantics of Rust's `str::split(" ")`). -/
def splitSpaceAux : List Char → List (List Char)
  | [] => [[]]
  | c :: cs =>
    let rest := splitSpaceAux cs
    if c = ' ' then [] :: rest
    else
      match rest with
      | [] => [[c]]
      | r :: rs => (c :: r) :: rs

/-- Rust's `str::split(" ")`: split at every single space, keeping empty
pieces (so `""` yields `[""]` and `"a  b"` yields `["a", "", "b"]`). -/
def splitSpace (s : String) : List String :=
  (splitSpaceAux s.toList).map (fun cs => String.mk cs)

/-- The inner `for (field, boost) in search_fields` loop of
`parse_fuzzy_query`: per field one `Should` clause holding a prefix
fuzzy-term query of edit distance 1, boosted when `boost > 0`. -/
def fuzzyFieldParts (searchTerm : String) (searchFields : List (Field × Score))
    (parts : List (Occur × Query)) : List (Occur × Query) :=
  searchFields.foldl (fun parts fb =>
    let q := Query.fuzzyTerm fb.1 searchTerm 1 true
    if fb.2 > 0 then parts ++ [(Occur.should, Query.boost q fb.2)]
    else parts ++ [(Occur.should, q)]) parts

/-- Embeds `parse_fuzzy_query` (reader.rs): lower-case, split on `" "`, skip empty
terms, one fuzzy clause per term and field, all `Should`. -/
def parse_fuzzy_query (query : String) (searchFields : List (Field × Score)) : Query :=
  let parts := (splitSpace query.toLower).foldl (fun parts searchTerm =>
    if searchTerm = "" then parts
    else fuzzyFieldParts searchTerm searchFields parts) []
  Query.boolean parts

/-- The inner `for (field, boost) in search_fields` loop of
`parse_fast_fuzzy_query`: per field one `Should` clause holding an exact
term query (`IndexRecordOption::WithFreqs`), boosted when `boost > 0`. -/
def fastFuzzyFieldParts (searchTerm : String) (searchFields : List (Field × Score))
    (parts : List (Occur × Query)) : List (Occur × Query) :=
  searchFields.foldl (fun parts fb =>
    let q := Query.term fb.1 searchTerm IndexRecordOption.withFreqs
    if fb.2 > 0 then parts ++ [(Occur.should, Query.boost q fb.2)]
    else parts ++ [(Occur.should, q)]) parts

/-- Embeds `parse_fast_fuzzy_query` (reader.rs): empty query short-circuits to
`EmptyQuery`; otherwise the whole string is corrected via the Corrector,
split on `" "`, the `ignore_stop_words` flag is computed, and the term ×
field clauses are accumulated, skipping stop words only under that flag.
The Corrector and the loaded stop-word set are parameters (external
collaborators). -/
def parse_fast_fuzzy_query (correct : String → Nat → String) (stopWords : List String)
    (query : String) (searchFields : List (Field × Score))
    (stripStopWords : Bool) : Query :=
  if query = "" then Query.empty
  else
    let sentence := correct query 1
    let words := splitSpace sentence
    let ignoreStopWords := ffIgnoreStopWords stripStopWords stopWords words
    let parts := words.foldl (fun parts searchTerm =>
      if ignoreStopWords && hasWord stopWords searchTerm then parts
      else fastFuzzyFieldParts searchTerm searchFields parts) []
    Query.boolean parts

/-- Declarative form of one word's clause list in the fast-fuzzy builder:
for each configured search field an exact term query over the word,
wrapped in a boost exactly when the field's weight is positive. -/
def fieldClausesFF (searchTerm : String) (searchFields : List (Field × Score)) :
    List (Occur × Query) :=
  searchFields.map (fun fb =>
    (Occur.should,
      if fb.2 > 0 then
        Query.boost (Query.term fb.1 searchTerm IndexRecordOption.withFreqs) fb.2
      else Query.term fb.1 searchTerm IndexRecordOption.withFreqs))

/-- The words the fast-fuzzy builder keeps: all of them, unless the
`ignore_stop_words` flag is set, in which case the stop words drop out. -/
def ffKeptWords (stripStopWords : Bool) (stopWords words : List String) : List String :=
  words.filter (fun w => !(ffIgnoreStopWords stripStopWords stopWords words && hasWord stopWords w))

theorem hasWord_eq_true_iff (stopWords : List String) (w : String) :
    hasWord stopWords w = true ↔ w ∈ stopWords := by
  induction stopWords with
  | nil => simp [hasWord]
  | cons s ss ih =>
    by_cases h : s = w
    · simp [hasWord, h]
    · simp [hasWord, h, ih]
      exact fun hw => (h hw.symm).elim

theorem anyNotStopWord_eq_true_iff (stopWords : List String) (words : List String) :
    anyNotStopWord stopWords words = true ↔ ∃ w ∈ words, hasWord stopWords w = false := by
  induction words with
  | nil => simp [anyNotStopWord]
  | cons w ws ih =>
    by_cases h : hasWord stopWords w
    · rw [anyNotStopWord, if_pos h, ih]
      constructor
      · rintro ⟨x, hx, hxf⟩
        exact ⟨x, List.mem_cons_of_mem _ hx, hxf⟩
      · rintro ⟨x, hx, hxf⟩
        rcases List.mem_cons.mp hx with rfl | hx
        · exact absurd h (by simp [hxf])
        · exact ⟨x, hx, hxf⟩
    · rw [anyNotStopWord, if_neg h]
      simp only [true_iff]
      exact ⟨w, List.mem_cons_self w ws, by simpa using h⟩

theorem fastFuzzyFieldParts_eq (searchTerm : String) :
    ∀ (searchFields : List (Field × Score)) (parts : List (Occur × Query)),
    fastFuzzyFieldParts searchTerm searchFields parts =
      parts ++ fieldClausesFF searchTerm searchFields := by
  intro searchFields
  induction searchFields with
  | nil => intro parts; simp [fastFuzzyFieldParts, fieldClausesFF]
  | cons fb fs ih =>
    intro parts
    by_cases h : fb.2 > 0
    · simp only [fastFuzzyFieldParts, List.foldl_cons, if_pos h]
      rw [show List.foldl _ (parts ++ [(Occur.should,
          Query.boost (Query.term fb.1 searchTerm IndexRecordOption.withFreqs) fb.2)]) fs =
          fastFuzzyFieldParts searchTerm fs (parts ++ [(Occur.should,
            Query.boost (Query.term fb.1 searchTerm IndexRecordOption.withFreqs) fb.2)]) from rfl,
        ih]
      simp [fieldClausesFF, h]
    · simp only [fastFuzzyFieldParts, List.foldl_cons, if_neg h]
      rw [show List.foldl _ (parts ++ [(Occur.should,
          Query.term fb.1 searchTerm IndexRecordOption.withFreqs)]) fs =
          fastFuzzyFieldParts searchTerm fs (parts ++ [(Occur.should,
            Query.term fb.1 searchTerm IndexRecordOption.withFreqs)]) from rfl,
        ih]
      simp [fieldClausesFF, h]

theorem ffPartsFold_eq (ignore : Bool) (stopWords : List String)
    (searchFields : List (Field × Score)) :
    ∀ (words : List String) (parts : List (Occur × Query)),
    words.foldl (fun parts searchTerm =>
        if ignore && hasWord stopWords searchTerm then parts
        else fastFuzzyFieldParts searchTerm searchFields parts) parts =
      parts ++ ((words.filter (fun w => !(ignore && hasWord stopWords w))).map
        (fun w => fieldClausesFF w searchFields)).flatten := by
  intro words
  induction words with
  | nil => intro parts; simp
  | cons w ws ih =>
    intro parts
    by_cases h : ignore && hasWord stopWords w
    · rw [List.foldl_cons, if_pos h, ih, List.filter_cons]
      simp [h]
    · rw [List.foldl_cons, if_neg h, fastFuzzyFieldParts_eq, ih, List.filter_cons]
      have h' : (!(ignore && hasWord stopWords w)) = true := by
        simp only [Bool.not_eq_true']
        exact Bool.not_eq_true _ ▸ (by simpa using h)
      simp [h']

theorem ffIgnoreStopWords_eq_false_of_allStop (stripStopWords : Bool)
    (stopWords words : List String)
    (hall : ∀ w ∈ words, hasWord stopWords w = true) :
    ffIgnoreStopWords stripStopWords stopWords words = false := by
  rw [ffIgnoreStopWords]
  by_cases hc : stripStopWords = true ∧ 1 < words.length
  · rw [if_pos hc]
    cases hAny : anyNotStopWord stopWords words with
    | false => rfl
    | true =>
      obtain ⟨w, hw, hwf⟩ := (anyNotStopWord_eq_true_iff stopWords words).mp hAny
      rw [hall w hw] at hwf
      exact absurd hwf (by simp)
  · rw [if_neg hc]

/-- C2: in fast-fuzzy query construction, stop-word stripping
(`ignore_stop_words`) is active iff stripping is enabled, the corrected
query splits into more than one word, and at least one of those words is
outside the stop-word set; consequently a query consisting solely of stop
words keeps every one of its terms and is never stripped down to
nothing. -/
theorem claim_c2 (stripStopWords : Bool) (stopWords : List String)
    (correct : String → Nat → String) (query : String)
    (searchFields : List (Field × Score)) :
    (ffIgnoreStopWords stripStopWords stopWords (splitSpace (correct query 1)) = true ↔
      (stripStopWords = true ∧ 1 < (splitSpace (correct query 1)).length ∧
        ∃ w ∈ splitSpace (correct query 1), hasWord stopWords w = false)) ∧
    ((∀ w ∈ splitSpace (correct query 1), hasWord stopWords w = true) →
      ffKeptWords stripStopWords stopWords (splitSpace (correct query 1)) =
        splitSpace (correct query 1)) ∧
    (query ≠ "" → (∀ w ∈ splitSpace (correct query 1), hasWord stopWords w = true) →
      parse_fast_fuzzy_query correct stopWords query searchFields stripStopWords =
        Query.boolean (((splitSpace (correct query 1)).map
          (fun w => fieldClausesFF w searchFields)).flatten)) := by
  refine ⟨?_, ?_, ?_⟩
  · rw [ffIgnoreStopWords]
    by_cases hc : stripStopWords = true ∧ 1 < (splitSpace (correct query 1)).length
    · rw [if_pos hc, anyNotStopWord_eq_true_iff]
      exact ⟨fun hex => ⟨hc.1, hc.2, hex⟩, fun hex => hex.2.2⟩
    · rw [if_neg hc]
      constructor
      · intro h
        exact absurd h (by simp)
      · rintro ⟨h1, h2, -⟩
        exact absurd ⟨h1, h2⟩ hc
  · intro hall
    rw [ffKeptWords, ffIgnoreStopWords_eq_false_of_allStop stripStopWords stopWords _ hall]
    simp
  · intro hq hall
    simp only [parse_fast_fuzzy_query]
    rw [if_neg hq, ffPartsFold_eq,
      ffIgnoreStopWords_eq_false_of_allStop stripStopWords stopWords _ hall]
    simp

/-- C2 at a concrete input: with stripping enabled, a two-word query made
only of stop words keeps both term groups. -/
theorem claim_c2_witness :
    parse_fast_fuzzy_query (fun s _ => s) ["the", "of"] "the of" [(0, (1 : Score))] true =
      Query.boolean (((splitSpace "the of").map
        (fun w => fieldClausesFF w [(0, (1 : Score))])).flatten) :=
  (claim_c2 true ["the", "of"] (fun s _ => s) "the of" [(0, (1 : Score))]).2.2
    (by decide) (by decide)

/-- Embeds `parse_more_like_this` (reader.rs): the fixed-threshold similarity
query over the reference document; the stop-word list is the provider's
list form. -/
def parse_more_like_this (stopWords : List String) (refDocument : DocAddress) : Query :=
  Query.moreLikeThis 1 10 1 2 18 1 stopWords refDocument

/-- Rust's `Option::transpose` on `Result<Option<T>, E>` (the
`.filter_map(|s| s.transpose())` step of the per-field-map branch). -/
def exceptTranspose {ε α : Type} : Except ε (Option α) → Option (Except ε α)
  | Except.error e => some (Except.error e)
  | Except.ok none => none
  | Except.ok (some a) => some (Except.ok a)

/-- Rust's `collect::<Result<Vec<_>, _>>()`: first error wins. -/
def collectExcept {ε α : Type} : List (Except ε α) → Except ε (List α)
  | [] => Except.ok []
  | Except.error e :: _ => Except.error e
  | Except.ok a :: rest => (collectExcept rest).map (fun as => a :: as)

/-- Embeds `parse_query` (reader.rs): the three query-construction systems,
dispatched on `(mode, &query, ref_document)` in the source's arm order.
The pre-built weighted parser, the per-field parsers and the Corrector are
externals, represented by the `parsedDefault` / `parsedField` query
constructors and the `correct` parameter; the loaded stop-word set/list is
the `stopWords` parameter. -/
def parse_query (index : Schema) (searchFields : List (Field × Score))
    (correct : String → Nat → String) (stopWords : List String)
    (query : Option (Either String (List (String × String))))
    (refDocument : Option DocAddress) (mode : QueryMode)
    (useFastFuzzy stripStopWords : Bool) : Except String Query :=
  match mode, query, refDocument with
  | QueryMode.normal, none, _ =>
    Except.error "query mode was `Normal` but query string is `None`"
  | QueryMode.normal, some (Either.left q), _ => Except.ok (Query.parsedDefault q)
  | QueryMode.normal, some (Either.right m), _ =>
    let attempts : List (Except String (Option Query)) := m.map (fun fq =>
      match Schema.get_field index fq.1 with
      | none => Except.ok none
      | some f => Except.ok (some (Query.parsedField f true fq.2)))
    match collectExcept (attempts.filterMap exceptTranspose) with
    | Except.error e => Except.error e
    | Except.ok queries => Except.ok (BooleanQuery.intersection queries)
  | QueryMode.fuzzy, none, _ =>
    Except.error "query mode was `Fuzzy` but query string is `None`"
  | QueryMode.fuzzy, some (Either.left q), _ =>
    if useFastFuzzy then
      Except.ok (parse_fast_fuzzy_query correct stopWords q searchFields stripStopWords)
    else Except.ok (parse_fuzzy_query q searchFields)
  | QueryMode.fuzzy, some (Either.right _), _ =>
    Except.error "query mode was `Fuzzy` but query string is `None`"
  | QueryMode.moreLikeThis, _, none =>
    Except.error "query mode was `MoreLikeThis` but reference document is `None`"
  | QueryMode.moreLikeThis, _, some refDoc =>
    Except.ok (parse_more_like_this stopWords refDoc)

/-- Embeds `Result::is_err`. -/
def isErr {ε α : Type} : Except ε α → Bool
  | Except.error _ => true
  | Except.ok _ => false

theorem mapBranch_eq (index : Schema) :
    ∀ (m : List (String × String)),
    collectExcept (((m.map (fun fq =>
        match Schema.get_field index fq.1 with
        | none => Except.ok none
        | some f => Except.ok (some (Query.parsedField f true fq.2)))
      : List (Except String (Option Query))).filterMap exceptTranspose)) =
      Except.ok (m.filterMap (fun fq =>
        (Schema.get_field index fq.1).map (fun f => Query.parsedField f true fq.2))) := by
  intro m
  induction m with
  | nil => rfl
  | cons fq rest ih =>
    cases hf : Schema.get_field index fq.1 with
    | none =>
      simp only [List.map_cons, List.filterMap_cons, hf, exceptTranspose, ih,
        List.filterMap_cons]
      simp [hf]
    | some f =>
      simp only [List.map_cons, List.filterMap_cons, hf, exceptTranspose,
        collectExcept, ih, List.filterMap_cons]
      simp [hf, Except.map]

/-- C3: for Fuzzy mode with fast-fuzzy enabled, an empty query string
yields the query matching no documents; a non-empty query is corrected by
the Corrector, split on spaces, and for every kept word and every
configured search field an exact (non-fuzzy) term query over the corrected
word is built, all as `Should` (OR) clauses, boosted exactly when the
field's weight is positive. -/
theorem claim_c3 (index : Schema) (searchFields : List (Field × Score))
    (correct : String → Nat → String) (stopWords : List String)
    (refDocument : Option DocAddress) (stripStopWords : Bool) (query : String) :
    (query = "" →
      parse_query index searchFields correct stopWords (some (Either.left query))
        refDocument QueryMode.fuzzy true stripStopWords = Except.ok Query.empty) ∧
    (query ≠ "" →
      parse_query index searchFields correct stopWords (some (Either.left query))
        refDocument QueryMode.fuzzy true stripStopWords =
        Except.ok (Query.boolean
          (((ffKeptWords stripStopWords stopWords (splitSpace (correct query 1))).map
            (fun w => fieldClausesFF w searchFields)).flatten))) := by
  constructor
  · intro hq
    subst hq
    rfl
  · intro hq
    simp only [parse_query, parse_fast_fuzzy_query, if_neg hq, if_true]
    rw [ffPartsFold_eq]
    simp [ffKeptWords]

/-- C3 at a concrete input: the empty fast-fuzzy query builds the
match-nothing query. -/
theorem claim_c3_witness :
    parse_query ⟨[]⟩ [] (fun s _ => s) [] (some (Either.left "")) none
      QueryMode.fuzzy true false = Except.ok Query.empty :=
  (claim_c3 ⟨[]⟩ [] (fun s _ => s) [] none false "").1 rfl

/-- C4: for Normal mode with a per-field map source, each pair whose field
is in the schema is parsed by a parser scoped to that single field with
conjunctive (AND) term combination, and the per-field sub-queries are
combined as a boolean intersection (`Must` clauses); pairs whose field is
unknown are silently skipped — the construction still succeeds. -/
theorem claim_c4 (index : Schema) (searchFields : List (Field × Score))
    (correct : String → Nat → String) (stopWords : List String)
    (m : List (String × String)) (refDocument : Option DocAddress)
    (useFastFuzzy stripStopWords : Bool) :
    parse_query index searchFields correct stopWords (some (Either.right m))
      refDocument QueryMode.normal useFastFuzzy stripStopWords =
      Except.ok (Query.boolean (m.filterMap (fun fq =>
        (Schema.get_field index fq.1).map
          (fun f => (Occur.must, Query.parsedField f true fq.2))))) := by
  simp only [parse_query]
  rw [mapBranch_eq]
  simp only [BooleanQuery.intersection, List.map_filterMap, Option.map_map]
  rfl

/-- C5: query construction errors exactly at the four mode/input
mismatches — Normal with no source, Fuzzy with no source, Fuzzy with a
per-field map source, MoreLikeThis with no reference document — and never
merely because the source shape is unusual for a matching mode (external
parse/stop-word failures are outside this embedding, whose externals are
total). -/
theorem claim_c5 (index : Schema) (searchFields : List (Field × Score))
    (correct : String → Nat → String) (stopWords : List String)
    (query : Option (Either String (List (String × String))))
    (refDocument : Option DocAddress) (mode : QueryMode)
    (useFastFuzzy stripStopWords : Bool) :
    isErr (parse_query index searchFields correct stopWords query refDocument mode
        useFastFuzzy stripStopWords) = true ↔
      ((mode = QueryMode.normal ∧ query = none) ∨
        (mode = QueryMode.fuzzy ∧ query = none) ∨
        (mode = QueryMode.fuzzy ∧ ∃ m, query = some (Either.right m)) ∨
        (mode = QueryMode.moreLikeThis ∧ refDocument = none)) := by
  cases mode with
  | normal =>
    rcases query with _ | ⟨q | m⟩
    · simp [parse_query, isErr]
    · simp [parse_query, isErr]
    · simp only [parse_query]
      rw [mapBranch_eq]
      simp [isErr]
  | fuzzy =>
    rcases query with _ | ⟨q | m⟩
    · simp [parse_query, isErr]
    · cases useFastFuzzy <;> simp [parse_query, isErr]
    · simp [parse_query, isErr]
  | moreLikeThis =>
    cases refDocument <;> rcases query with _ | ⟨q | m⟩ <;> simp [parse_query, isErr]

/-- The ranking value attached to a hit (`serde_json::json!(ratio)`): the
document score on the relevance path (`f32`), or the ordering fast field's
value (`i64`/`u64`/`f64`; tantivy reads `Date` fast fields as `i64`). -/
inductive RankValue where
  | f32 (s : Rat)
  | i64 (n : Int)
  | u64 (n : Nat)
  | f64 (x : Rat)
  deriving DecidableEq, Repr

/-- Embeds `QueryHit` (reader.rs): document id rendered as a decimal string, the
named-field document with the private id removed, and the ranking value
(source field name: `ratio`). -/
structure QueryHit where
  document_id : String
  doc : NamedFieldDocument
  ratioValue : RankValue
  deriving DecidableEq, Repr

/-- Embeds `QueryResults` (reader.rs): hits in rank order, total count, elapsed
seconds (`0` until the handler fills it in). -/
structure QueryResults where
  hits : List QueryHit
  count : Nat
  time_taken : Rat
  deriving DecidableEq, Repr

/-- The outcome of the blocking search computation: a value, an `Err`
carried back over the channel, or a Rust panic (an out-of-bounds index). -/
inductive SearchOutcome (α : Type) where
  | ok (val : α)
  | err (msg : String)
  | panicked
  deriving DecidableEq, Repr

/-- Mapping over the `ok` value of an outcome. -/
def SearchOutcome.mapVal {α β : Type} (f : α → β) : SearchOutcome α → SearchOutcome β
  | SearchOutcome.ok a => SearchOutcome.ok (f a)
  | SearchOutcome.err m => SearchOutcome.err m
  | SearchOutcome.panicked => SearchOutcome.panicked

/-- The searcher snapshot plus the external tantivy collectors: `docs` is
the stored-document store consulted by `searcher.doc(..)` (after
`to_named_doc`), and the `top*` fields stand for `search_with_executor`
with the `(TopDocs..., Count)` collector — plain relevance-scored, or
`order_by_fast_field` at each of the four fast-field types. -/
structure Searcher where
  docs : List (DocAddress × NamedFieldDocument)
  topScored : Query → Nat → Nat → List (Score × DocAddress) × Nat
  topI64 : Query → Nat → Nat → List (Int × DocAddress) × Nat
  topU64 : Query → Nat → Nat → List (Nat × DocAddress) × Nat
  topF64 : Query → Nat → Nat → List (Rat × DocAddress) × Nat
  topDate : Query → Nat → Nat → List (Int × DocAddress) × Nat

/-- The `process_search!` macro body (reader.rs): for every raw match
fetch the stored document, remove the `"_id"` entry (its absence is the
corrupt-dataset error), read the first value of that entry by unchecked
index (`id[0]` — an empty value list is an out-of-bounds panic), require
it to be `Value::U64`, and emit the hit. -/
def processHits (docs : List (DocAddress × NamedFieldDocument)) :
    List (RankValue × DocAddress) → SearchOutcome (List QueryHit)
  | [] => SearchOutcome.ok []
  | (rv, addr) :: rest =>
    match getAssoc addr docs with
    | none => SearchOutcome.err "doc store lookup failed"
    | some retrievedDoc =>
      match removeKey "_id" retrievedDoc.entries with
      | (none, _) =>
        SearchOutcome.err
          "document has been missed labeled (missing identifier tag), the dataset is invalid"
      | (some idValues, remaining) =>
        match idValues with
        | [] => SearchOutcome.panicked
        | v :: _ =>
          match v with
          | Value.u64 n =>
            SearchOutcome.mapVal (fun hits => ⟨toString n, ⟨remaining⟩, rv⟩ :: hits)
              (processHits docs rest)
          | _ =>
            SearchOutcome.err
              "document has been missed labeled (missing identifier tag), the dataset is invalid"

/-- Hit processing followed by packaging with the match count (the
`(process_search!(..), out.1)` step shared by every branch of `search`). -/
def orderedResult (docs : List (DocAddress × NamedFieldDocument))
    (ranks : List (RankValue × DocAddress)) (count : Nat) :
    SearchOutcome QueryResults :=
  SearchOutcome.mapVal (fun hits => ⟨hits, count, 0⟩) (processHits docs ranks)

/-- Embeds `search` (reader.rs): with no ordering field, the relevance-scored
collector; with one, dispatch on the field's declared type to the four
typed fast-field orderings, every other type failing with
`"field is not a fast field"`.  `fieldTypeOf` returning `none` models
tantivy's `get_field_entry` panicking on an out-of-range field, which the
caller cannot reach (the field was resolved from the schema). -/
def search (query : Query) (searcher : Searcher) (limit offset : Nat)
    (schema : Schema) (order_by : Option Field) : SearchOutcome QueryResults :=
  match order_by with
  | some field =>
    match Schema.fieldTypeOf schema field with
    | some FieldType.i64 =>
      let out := searcher.topI64 query limit offset
      orderedResult searcher.docs (out.1.map (fun p => (RankValue.i64 p.1, p.2))) out.2
    | some FieldType.u64 =>
      let out := searcher.topU64 query limit offset
      orderedResult searcher.docs (out.1.map (fun p => (RankValue.u64 p.1, p.2))) out.2
    | some FieldType.f64 =>
      let out := searcher.topF64 query limit offset
      orderedResult searcher.docs (out.1.map (fun p => (RankValue.f64 p.1, p.2))) out.2
    | some FieldType.date =>
      let out := searcher.topDate query limit offset
      orderedResult searcher.docs (out.1.map (fun p => (RankValue.i64 p.1, p.2))) out.2
    | some _ => SearchOutcome.err "field is not a fast field"
    | none => SearchOutcome.panicked
  | none =>
    let out := searcher.topScored query limit offset
    orderedResult searcher.docs (out.1.map (fun p => (RankValue.f32 p.1, p.2))) out.2

theorem mapVal_eq_panicked_iff {α β : Type} (f : α → β) (o : SearchOutcome α) :
    SearchOutcome.mapVal f o = SearchOutcome.panicked ↔ o = SearchOutcome.panicked := by
  cases o <;> simp [SearchOutcome.mapVal]

/-- C6: with an ordering field, execution dispatches on the field's
declared type among signed integer, unsigned integer, floating point and
date, each ordering by that field's fast-access representation; any other
declared type fails the whole search with `"field is not a fast field"`
(an error result carrying no hits). -/
theorem claim_c6 (query : Query) (searcher : Searcher) (limit offset : Nat)
    (schema : Schema) (f : Field) (ft : FieldType)
    (hft : Schema.fieldTypeOf schema f = some ft) :
    (ft = FieldType.i64 →
      search query searcher limit offset schema (some f) =
        orderedResult searcher.docs
          ((searcher.topI64 query limit offset).1.map (fun p => (RankValue.i64 p.1, p.2)))
          (searcher.topI64 query limit offset).2) ∧
    (ft = FieldType.u64 →
      search query searcher limit offset schema (some f) =
        orderedResult searcher.docs
          ((searcher.topU64 query limit offset).1.map (fun p => (RankValue.u64 p.1, p.2)))
          (searcher.topU64 query limit offset).2) ∧
    (ft = FieldType.f64 →
      search query searcher limit offset schema (some f) =
        orderedResult searcher.docs
          ((searcher.topF64 query limit offset).1.map (fun p => (RankValue.f64 p.1, p.2)))
          (searcher.topF64 query limit offset).2) ∧
    (ft = FieldType.date →
      search query searcher limit offset schema (some f) =
        orderedResult searcher.docs
          ((searcher.topDate query limit offset).1.map (fun p => (RankValue.i64 p.1, p.2)))
          (searcher.topDate query limit offset).2) ∧
    (ft ≠ FieldType.i64 → ft ≠ FieldType.u64 → ft ≠ FieldType.f64 → ft ≠ FieldType.date →
      search query searcher limit offset schema (some f) =
        SearchOutcome.err "field is not a fast field") := by
  refine ⟨?_, ?_, ?_, ?_, ?_⟩ <;> intro h
  · subst h; simp [search, hft]
  · subst h; simp [search, hft]
  · subst h; simp [search, hft]
  · subst h; simp [search, hft]
  · intro h2 h3 h4
    cases ft <;> simp_all [search, hft]

/-- A searcher with an empty store and collectors returning no matches. -/
def dummySearcher : Searcher :=
  ⟨[], fun _ _ _ => ([], 0), fun _ _ _ => ([], 0), fun _ _ _ => ([], 0),
    fun _ _ _ => ([], 0), fun _ _ _ => ([], 0)⟩

/-- C6 at a concrete input: ordering by a text (`Str`) field fails with
the fast-field error. -/
theorem claim_c6_witness :
    search Query.empty dummySearcher 10 0 ⟨[("title", FieldType.str)]⟩ (some 0) =
      SearchOutcome.err "field is not a fast field" :=
  (claim_c6 Query.empty dummySearcher 10 0 ⟨[("title", FieldType.str)]⟩ 0 FieldType.str
    rfl).2.2.2.2 (by decide) (by decide) (by decide) (by decide)

/-- C7: for every raw match turned into a hit, the `"_id"` entry is
removed from the named-field document; a missing entry or a first value
that is not `Value::U64` fails the whole request with the corrupt-dataset
error; otherwise the hit carries the identifier as a decimal string, the
remaining named fields, and the match's ranking value. -/
theorem claim_c7 (docs : List (DocAddress × NamedFieldDocument)) (rv : RankValue)
    (addr : DocAddress) (retrievedDoc : NamedFieldDocument)
    (rest : List (RankValue × DocAddress))
    (hdoc : getAssoc addr docs = some retrievedDoc) :
    ((removeKey "_id" retrievedDoc.entries).1 = none →
      processHits docs ((rv, addr) :: rest) =
        SearchOutcome.err
          "document has been missed labeled (missing identifier tag), the dataset is invalid") ∧
    (∀ v vs, (removeKey "_id" retrievedDoc.entries).1 = some (v :: vs) →
      (∀ n, v ≠ Value.u64 n) →
      processHits docs ((rv, addr) :: rest) =
        SearchOutcome.err
          "document has been missed labeled (missing identifier tag), the dataset is invalid") ∧
    (∀ n vs, (removeKey "_id" retrievedDoc.entries).1 = some (Value.u64 n :: vs) →
      processHits docs ((rv, addr) :: rest) =
        SearchOutcome.mapVal
          (fun hits => ⟨toString n, ⟨(removeKey "_id" retrievedDoc.entries).2⟩, rv⟩ :: hits)
          (processHits docs rest)) := by
  rcases hrk : removeKey "_id" retrievedDoc.entries with ⟨o, remaining⟩
  refine ⟨?_, ?_, ?_⟩
  · intro ho
    simp only [hrk] at ho
    subst ho
    simp [processHits, hdoc, hrk]
  · intro v vs ho hvne
    simp only [hrk] at ho
    subst ho
    cases v with
    | u64 n => exact absurd rfl (hvne n)
    | str s => simp [processHits, hdoc, hrk]
    | i64 n => simp [processHits, hdoc, hrk]
    | f64 x => simp [processHits, hdoc, hrk]
    | date d => simp [processHits, hdoc, hrk]
    | bytes bs => simp [processHits, hdoc, hrk]
  · intro n vs ho
    simp only [hrk] at ho
    subst ho
    simp [processHits, hdoc, hrk]

/-- C7 at a concrete input: a well-labelled match produces a hit with the
decimal id, the remaining fields, and the ranking value. -/
theorem claim_c7_witness :
    processHits [(0, ⟨[("_id", [Value.u64 7]), ("body", [Value.str "x"])]⟩)]
        [(RankValue.f32 1, 0)] =
      SearchOutcome.mapVal
        (fun hits =>
          ⟨toString 7,
            ⟨(removeKey "_id" [("_id", [Value.u64 7]), ("body", [Value.str "x"])]).2⟩,
            RankValue.f32 1⟩ :: hits)
        (processHits [(0, ⟨[("_id", [Value.u64 7]), ("body", [Value.str "x"])]⟩)] []) :=
  (claim_c7 [(0, ⟨[("_id", [Value.u64 7]), ("body", [Value.str "x"])]⟩)]
    (RankValue.f32 1) 0 ⟨[("_id", [Value.u64 7]), ("body", [Value.str "x"])]⟩ []
    (by decide)).2.2 7 [] (by decide)

/-- C10: hit mapping is total (hit or corrupt-dataset error) under the
unstated precondition that every matched document's `"_id"` entry holds at
least one value — the `id[0]` read is an unchecked index, and an `"_id"`
entry with an empty value list is an out-of-bounds panic, not the error
branch. -/
theorem claim_c10 :
    (∀ (docs : List (DocAddress × NamedFieldDocument))
        (ranks : List (RankValue × DocAddress)),
      (∀ rv addr, (rv, addr) ∈ ranks → ∀ d, getAssoc addr docs = some d →
        ∀ vs, (removeKey "_id" d.entries).1 = some vs → vs ≠ []) →
      processHits docs ranks ≠ SearchOutcome.panicked) ∧
    processHits [(0, ⟨[("_id", [])]⟩)] [(RankValue.f32 1, 0)] =
      SearchOutcome.panicked := by
  constructor
  · intro docs ranks hpre
    induction ranks with
    | nil => simp [processHits]
    | cons p rest ih =>
      rcases p with ⟨rv, addr⟩
      have ihrest := ih (fun rv2 addr2 hmem => hpre rv2 addr2 (List.mem_cons_of_mem _ hmem))
      cases hd : getAssoc addr docs with
      | none => simp [processHits, hd]
      | some d =>
        rcases hrk : removeKey "_id" d.entries with ⟨o, remaining⟩
        cases o with
        | none => simp [processHits, hd, hrk]
        | some idValues =>
          cases idValues with
          | nil =>
            have : ([] : List Value) ≠ [] :=
              hpre rv addr (List.mem_cons_self _ _) d hd [] (by rw [hrk])
            exact absurd rfl this
          | cons v vtail =>
            cases v <;> simp [processHits, hd, hrk, mapVal_eq_panicked_iff, ihrest]
  · decide

/-- Modelled from the spec: the Concurrency Gate (a counting permit
system backed by tokio's external `Semaphore`, held in
`IndexReaderHandler.limiter`).  `capacity` is `max_concurrency`,
`available` the permits not currently held, `closed` whether the gate has
been closed. -/
structure Gate where
  capacity : Nat
  available : Nat
  closed : Bool
  deriving DecidableEq, Repr

/-- The outcome of an acquire: granted (with the successor state), still
suspended because not enough permits are free, or the "gate closed"
error. -/
inductive AcquireOutcome where
  | granted (g : Gate)
  | blocked
  | closedErr
  deriving DecidableEq, Repr

/-- Modelled from the spec: `acquire()` — fails once closed, suspends at
zero free permits, otherwise takes one permit. -/
def Gate.acquire (g : Gate) : AcquireOutcome :=
  if g.closed then AcquireOutcome.closedErr
  else if 0 < g.available then AcquireOutcome.granted ⟨g.capacity, g.available - 1, g.closed⟩
  else AcquireOutcome.blocked

/-- Modelled from the spec: `acquire_many(n)` — fails once closed,
suspends until `n` permits are free, then takes all of them at once. -/
def Gate.acquireMany (g : Gate) (n : Nat) : AcquireOutcome :=
  if g.closed then AcquireOutcome.closedErr
  else if n ≤ g.available then AcquireOutcome.granted ⟨g.capacity, g.available - n, g.closed⟩
  else AcquireOutcome.blocked

/-- Dropping a held permit batch returns it to the gate. -/
def Gate.addPermits (g : Gate) (n : Nat) : Gate :=
  ⟨g.capacity, g.available + n, g.closed⟩

/-- Embeds `Semaphore::close`. -/
def Gate.close (g : Gate) : Gate :=
  ⟨g.capacity, g.available, true⟩

/-- The handler state the shutdown path touches: the gate and whether the
executor pool is still up. -/
structure HandlerState where
  gate : Gate
  executorPoolAlive : Bool
  deriving DecidableEq, Repr

/-- Embeds `IndexReaderHandler::shutdown` (reader.rs): acquire all
`max_concurrency` permits (the `let _ =` binding drops them again at
once), close the gate, tear down the executor pool.  `none` means the call
cannot complete in this state (still suspended, or the acquire already
failed). -/
def HandlerState.shutdown (st : HandlerState) : Option HandlerState :=
  match st.gate.acquireMany st.gate.capacity with
  | AcquireOutcome.granted g =>
    some ⟨(Gate.addPermits g st.gate.capacity).close, false⟩
  | _ => none

/-- The `self.limiter.acquire().await?` entry step shared by `search` and
`get_doc` (reader.rs). -/
def searchAcquire (st : HandlerState) : AcquireOutcome :=
  st.gate.acquire

/-- C8: with `inflight` operations each holding one permit
(`available + inflight = capacity`), `shutdown` completes exactly when the
gate is still open and every in-flight `search`/`get_doc` has released its
permit; its post-state has the gate closed and the executor pool torn
down, and in any closed-gate state a `search`/`get_doc` acquire fails with
the gate-closed error rather than blocking. -/
theorem claim_c8 (st : HandlerState) (inflight : Nat)
    (hinv : st.gate.available + inflight = st.gate.capacity) :
    ((HandlerState.shutdown st).isSome = true ↔
      (st.gate.closed = false ∧ inflight = 0)) ∧
    (∀ st2, HandlerState.shutdown st = some st2 →
      st2.gate.closed = true ∧ st2.executorPoolAlive = false ∧
        searchAcquire st2 = AcquireOutcome.closedErr) ∧
    (∀ st3 : HandlerState, st3.gate.closed = true →
      searchAcquire st3 = AcquireOutcome.closedErr) := by
  refine ⟨?_, ?_, ?_⟩
  · rw [HandlerState.shutdown, Gate.acquireMany]
    by_cases hc : st.gate.closed
    · simp only [if_pos hc]
      simp [hc]
    · simp only [if_neg hc]
      by_cases hle : st.gate.capacity ≤ st.gate.available
      · simp only [if_pos hle]
        simp only [Option.isSome_some, true_iff]
        exact ⟨Bool.eq_false_iff.mpr hc, by omega⟩
      · simp only [if_neg hle]
        simp only [Option.isSome_none, Bool.false_eq_true, false_iff, not_and]
        intro _ h0
        exact hle (by omega)
  · intro st2 hshut
    rw [HandlerState.shutdown] at hshut
    rcases hacq : st.gate.acquireMany st.gate.capacity with ⟨g⟩ | _ | _ <;>
      rw [hacq] at hshut
    · cases hshut
      refine ⟨rfl, rfl, ?_⟩
      rw [searchAcquire, Gate.acquire]
      simp [Gate.addPermits, Gate.close]
    · cases hshut
    · cases hshut
  · intro st3 hclosed
    rw [searchAcquire, Gate.acquire, if_pos hclosed]

/-- C8 at a concrete input: with no operation in flight, shutdown
completes, closes the gate, tears the pool down, and a subsequent acquire
fails with the gate-closed error. -/
theorem claim_c8_witness :
    HandlerState.shutdown ⟨⟨2, 2, false⟩, true⟩ = some ⟨⟨2, 2, true⟩, false⟩ ∧
      searchAcquire ⟨⟨2, 2, true⟩, false⟩ = AcquireOutcome.closedErr := by
  refine ⟨by decide, ?_⟩
  exact ((claim_c8 ⟨⟨2, 2, false⟩, true⟩ 0 (by decide)).2.1 ⟨⟨2, 2, true⟩, false⟩
    (by decide)).2.2

/-- Modelled from the spec: `crate::structures::DocumentValue` is not
among the source files; the spec gives a tagged union of which the `Text`
variant is the one this core inspects. -/
inductive DocumentValue where
  | text (s : String)
  | u64 (n : Nat)
  | i64 (n : Int)
  | f64 (x : Rat)
  deriving DecidableEq, Repr

/-- Modelled from the spec: `crate::structures::DocumentItem` is not
among the source files; the spec gives `Single(value)` or `Multi(ordered
list of values)`. -/
inductive DocumentItem where
  | single (v : DocumentValue)
  | multi (vs : List DocumentValue)
  deriving DecidableEq, Repr

/-- Modelled from the spec: `crate::structures::Document` is not among the
source files; the spec gives an ordered mapping from field name to
`DocumentItem` (so inserting an existing key replaces its entry). -/
structure Document where
  fields : List (String × DocumentItem)
  deriving DecidableEq, Repr

/-- The shadow-field name `format!("_{}", hash(target))` (helpers.rs);
the `ahash` 64-bit hash is external, passed as `hashFn`. -/
def shadowKey (hashFn : String → Nat) (target : String) : String :=
  "_" ++ toString (hashFn target)

/-- The inner `for val in values` loop of the `Multi` branch of
`correct_doc_fields`: corrected text values, non-text values skipped. -/
def collectTextCorrections (correct : String → Nat → String) :
    List DocumentValue → List DocumentValue
  | [] => []
  | DocumentValue.text d :: rest =>
    DocumentValue.text (correct d 1) :: collectTextCorrections correct rest
  | _ :: rest => collectTextCorrections correct rest

/-- The first, change-collecting loop of `correct_doc_fields`
(helpers.rs): one pending `(shadow key, corrected item)` entry per
configured field that is present with text content; a `Single` non-text
value contributes nothing, and a `Multi` whose corrections come out empty
contributes nothing (`local_changes.len() > 0` guard). -/
def changesFor (correct : String → Nat → String) (hashFn : String → Nat)
    (doc : Document) (indexedTextFields : List String) :
    List (String × DocumentItem) :=
  indexedTextFields.foldl (fun changes target =>
    match getAssoc target doc.fields with
    | none => changes
    | some (DocumentItem.single v) =>
      match v with
      | DocumentValue.text data =>
        changes ++ [(shadowKey hashFn target,
          DocumentItem.single (DocumentValue.text (correct data 1)))]
      | _ => changes
    | some (DocumentItem.multi values) =>
      let localChanges := collectTextCorrections correct values
      if 0 < localChanges.length then
        changes ++ [(shadowKey hashFn target, DocumentItem.multi localChanges)]
      else changes) []

/-- Embeds `correct_doc_fields` (helpers.rs): collect the pending shadow entries,
then insert each into the document's mapping. -/
def correct_doc_fields (correct : String → Nat → String) (hashFn : String → Nat)
    (doc : Document) (indexedTextFields : List String) : Document :=
  ⟨(changesFor correct hashFn doc indexedTextFields).foldl
    (fun fs kv => mapInsert fs kv.1 kv.2) doc.fields⟩

/-- Whether a configured field is present in the document with text
content (the condition under which the loop above queues a change). -/
def hasTextValue : List DocumentValue → Bool
  | [] => false
  | DocumentValue.text _ :: _ => true
  | _ :: rest => hasTextValue rest

/-- Declarative: does this field contribute a shadow entry? -/
def qualifies (doc : Document) (target : String) : Bool :=
  match getAssoc target doc.fields with
  | some (DocumentItem.single (DocumentValue.text _)) => true
  | some (DocumentItem.multi vs) => hasTextValue vs
  | _ => false

/-- Declarative: the shadow item a qualifying field contributes. -/
def changeOf (correct : String → Nat → String) (doc : Document) (target : String) :
    Option DocumentItem :=
  match getAssoc target doc.fields with
  | some (DocumentItem.single (DocumentValue.text data)) =>
    some (DocumentItem.single (DocumentValue.text (correct data 1)))
  | some (DocumentItem.multi vs) =>
    let lc := collectTextCorrections correct vs
    if 0 < lc.length then some (DocumentItem.multi lc) else none
  | _ => none

/-- The document's field names. -/
def docKeys (doc : Document) : List String :=
  doc.fields.map Prod.fst

theorem getAssoc_mapInsert {α β : Type} [DecidableEq α] (k k1 : α) (v1 : β) :
    ∀ (m : List (α × β)),
    getAssoc k (mapInsert m k1 v1) = if k1 = k then some v1 else getAssoc k m := by
  intro m
  induction m with
  | nil =>
    by_cases h : k1 = k <;> simp [mapInsert, getAssoc, h]
  | cons p ps ih =>
    by_cases hp : p.1 = k1
    · rw [mapInsert, if_pos hp]
      by_cases h : k1 = k
      · simp [getAssoc, h]
      · have hpk : ¬p.1 = k := by rw [hp]; exact h
        simp [getAssoc, h, hpk]
    · rw [mapInsert, if_neg hp]
      by_cases hpk : p.1 = k
      · have h : ¬k1 = k := fun hk => hp (hpk.trans hk.symm ▸ rfl)
        simp [getAssoc, hpk, h]
      · simp [getAssoc, hpk, ih]

theorem getAssoc_foldInsert_of_fresh {α β : Type} [DecidableEq α] (k : α) :
    ∀ (kvs : List (α × β)) (m : List (α × β)),
    (∀ kv ∈ kvs, kv.1 ≠ k) →
    getAssoc k (kvs.foldl (fun fs kv => mapInsert fs kv.1 kv.2) m) = getAssoc k m := by
  intro kvs
  induction kvs with
  | nil => intro m _; rfl
  | cons kv rest ih =>
    intro m hfresh
    rw [List.foldl_cons, ih _ (fun kv2 h2 => hfresh kv2 (List.mem_cons_of_mem _ h2)),
      getAssoc_mapInsert, if_neg (hfresh kv (List.mem_cons_self _ _))]

theorem isSome_foldInsert_of_isSome {α β : Type} [DecidableEq α] (k : α) :
    ∀ (kvs : List (α × β)) (m : List (α × β)),
    (getAssoc k m).isSome = true →
    (getAssoc k (kvs.foldl (fun fs kv => mapInsert fs kv.1 kv.2) m)).isSome = true := by
  intro kvs
  induction kvs with
  | nil => intro m h; exact h
  | cons kv rest ih =>
    intro m h
    rw [List.foldl_cons]
    refine ih _ ?_
    rw [getAssoc_mapInsert]
    by_cases hk : kv.1 = k
    · simp [hk]
    · simpa [hk] using h

theorem isSome_foldInsert_of_memKey {α β : Type} [DecidableEq α] (k : α) :
    ∀ (kvs : List (α × β)) (m : List (α × β)),
    k ∈ kvs.map Prod.fst →
    (getAssoc k (kvs.foldl (fun fs kv => mapInsert fs kv.1 kv.2) m)).isSome = true := by
  intro kvs
  induction kvs with
  | nil => intro m h; simp at h
  | cons kv rest ih =>
    intro m h
    rw [List.map_cons] at h
    rcases List.mem_cons.mp h with hk | hk
    · rw [List.foldl_cons]
      refine isSome_foldInsert_of_isSome _ _ _ ?_
      rw [getAssoc_mapInsert, if_pos hk.symm]
      rfl
    · rw [List.foldl_cons]
      exact ih _ hk

theorem getAssoc_foldInsert_eq_some {α β : Type} [DecidableEq α] (k : α) (v : β) :
    ∀ (kvs : List (α × β)) (m : List (α × β)),
    getAssoc k (kvs.foldl (fun fs kv => mapInsert fs kv.1 kv.2) m) = some v →
    getAssoc k m = some v ∨ (k, v) ∈ kvs := by
  intro kvs
  induction kvs with
  | nil => intro m h; exact Or.inl h
  | cons kv rest ih =>
    intro m h
    rw [List.foldl_cons] at h
    rcases ih _ h with hin | hin
    · rw [getAssoc_mapInsert] at hin
      by_cases hk : kv.1 = k
      · rw [if_pos hk] at hin
        right
        have hv : v = kv.2 := by injection hin with h2; exact h2.symm
        subst hv
        have hkv : (k, kv.2) = kv := by rw [← hk]
        rw [hkv]
        exact List.mem_cons_self _ _
      · rw [if_neg hk] at hin
        exact Or.inl hin
    · exact Or.inr (List.mem_cons_of_mem _ hin)

theorem getAssoc_eq_none_of_not_memKey {α β : Type} [DecidableEq α] (k : α) :
    ∀ (m : List (α × β)), k ∉ m.map Prod.fst → getAssoc k m = none := by
  intro m
  induction m with
  | nil => intro _; rfl
  | cons p ps ih =>
    intro h
    rw [List.map_cons] at h
    rw [getAssoc, if_neg (fun hk : p.1 = k => h (List.mem_cons.mpr (Or.inl hk.symm)))]
    exact ih (fun hk => h (List.mem_cons_of_mem _ hk))

theorem collect_pos_iff_hasTextValue (correct : String → Nat → String) :
    ∀ (vs : List DocumentValue),
    0 < (collectTextCorrections correct vs).length ↔ hasTextValue vs = true := by
  intro vs
  induction vs with
  | nil => simp [collectTextCorrections, hasTextValue]
  | cons v rest ih =>
    cases v with
    | text s => simp [collectTextCorrections, hasTextValue]
    | u64 n => simpa [collectTextCorrections, hasTextValue] using ih
    | i64 n => simpa [collectTextCorrections, hasTextValue] using ih
    | f64 x => simpa [collectTextCorrections, hasTextValue] using ih

theorem changeOf_isSome_eq_qualifies (correct : String → Nat → String)
    (doc : Document) (target : String) :
    (changeOf correct doc target).isSome = qualifies doc target := by
  rw [changeOf, qualifies]
  cases hget : getAssoc target doc.fields with
  | none => rfl
  | some item =>
    cases item with
    | single v => cases v <;> rfl
    | multi vs =>
      show (if 0 < (collectTextCorrections correct vs).length then
          some (DocumentItem.multi (collectTextCorrections correct vs))
        else none).isSome = hasTextValue vs
      by_cases hlc : 0 < (collectTextCorrections correct vs).length
      · rw [if_pos hlc, Option.isSome_some]
        exact ((collect_pos_iff_hasTextValue correct vs).mp hlc).symm
      · rw [if_neg hlc, Option.isSome_none]
        cases hv : hasTextValue vs
        · rfl
        · exact absurd ((collect_pos_iff_hasTextValue correct vs).mpr hv) hlc

theorem changeOf_multi_ne_nil (correct : String → Nat → String)
    (doc : Document) (target : String) (vs : List DocumentValue)
    (h : changeOf correct doc target = some (DocumentItem.multi vs)) : vs ≠ [] := by
  rw [changeOf] at h
  cases hget : getAssoc target doc.fields with
  | none =>
    rw [hget] at h
    exact absurd h (by simp)
  | some item =>
    rw [hget] at h
    cases item with
    | single v =>
      cases v with
      | text s =>
        replace h : some (DocumentItem.single (DocumentValue.text (correct s 1))) =
            some (DocumentItem.multi vs) := h
        exact absurd h (by simp)
      | u64 n => exact absurd (show (none : Option DocumentItem) = some (DocumentItem.multi vs) from h) (by simp)
      | i64 n => exact absurd (show (none : Option DocumentItem) = some (DocumentItem.multi vs) from h) (by simp)
      | f64 x => exact absurd (show (none : Option DocumentItem) = some (DocumentItem.multi vs) from h) (by simp)
    | multi vs0 =>
      replace h : (if 0 < (collectTextCorrections correct vs0).length then
          some (DocumentItem.multi (collectTextCorrections correct vs0))
        else none) = some (DocumentItem.multi vs) := h
      by_cases hlc : 0 < (collectTextCorrections correct vs0).length
      · rw [if_pos hlc] at h
        injection h with h2
        injection h2 with h3
        intro hnil
        rw [h3, hnil] at hlc
        simp at hlc
      · rw [if_neg hlc] at h
        cases h

theorem changesFold_eq (correct : String → Nat → String) (hashFn : String → Nat)
    (doc : Document) :
    ∀ (indexedTextFields : List String) (acc : List (String × DocumentItem)),
    indexedTextFields.foldl (fun changes target =>
      match getAssoc target doc.fields with
      | none => changes
      | some (DocumentItem.single v) =>
        match v with
        | DocumentValue.text data =>
          changes ++ [(shadowKey hashFn target,
            DocumentItem.single (DocumentValue.text (correct data 1)))]
        | _ => changes
      | some (DocumentItem.multi values) =>
        let localChanges := collectTextCorrections correct values
        if 0 < localChanges.length then
          changes ++ [(shadowKey hashFn target, DocumentItem.multi localChanges)]
        else changes) acc =
      acc ++ indexedTextFields.filterMap (fun t =>
        (changeOf correct doc t).map (fun v => (shadowKey hashFn t, v))) := by
  intro fields
  induction fields with
  | nil => intro acc; simp
  | cons t ts ih =>
    intro acc
    rw [List.foldl_cons, ih, List.filterMap_cons]
    have hstep : (match getAssoc t doc.fields with
        | none => acc
        | some (DocumentItem.single v) =>
          match v with
          | DocumentValue.text data =>
            acc ++ [(shadowKey hashFn t,
              DocumentItem.single (DocumentValue.text (correct data 1)))]
          | _ => acc
        | some (DocumentItem.multi values) =>
          let localChanges := collectTextCorrections correct values
          if 0 < localChanges.length then
            acc ++ [(shadowKey hashFn t, DocumentItem.multi localChanges)]
          else acc) =
        acc ++ ((changeOf correct doc t).map (fun v => (shadowKey hashFn t, v))).toList := by
      rw [changeOf]
      cases hget : getAssoc t doc.fields with
      | none => simp
      | some item =>
        cases item with
        | single v => cases v <;> simp
        | multi vs0 =>
          by_cases hlc : 0 < (collectTextCorrections correct vs0).length
          · simp [hlc]
          · simp [hlc]
    rw [hstep]
    cases hchg : (changeOf correct doc t).map (fun v => (shadowKey hashFn t, v)) with
    | none => simp
    | some kv => simp

theorem changesFor_eq (correct : String → Nat → String) (hashFn : String → Nat)
    (doc : Document) (indexedTextFields : List String) :
    changesFor correct hashFn doc indexedTextFields =
      indexedTextFields.filterMap (fun t =>
        (changeOf correct doc t).map (fun v => (shadowKey hashFn t, v))) := by
  rw [changesFor, changesFold_eq]
  simp

/-- C9, counterexample to the claim as stated: `correct_doc_fields` CAN
modify an existing field.  With a hash sending `"title"` to `0`, a
document that already owns a field literally named `"_0"` has that field
overwritten by the shadow insert (`Map::insert` replaces), so "never
removes or modifies any existing field" fails. -/
theorem claim_c9_counterexample :
    getAssoc "_0"
        (correct_doc_fields (fun s _ => s) (fun _ => 0)
          ⟨[("title", DocumentItem.single (DocumentValue.text "a")),
            ("_0", DocumentItem.single (DocumentValue.u64 5))]⟩
          ["title"]).fields =
      some (DocumentItem.single (DocumentValue.text "a")) ∧
    getAssoc "_0"
        [("title", DocumentItem.single (DocumentValue.text "a")),
          ("_0", DocumentItem.single (DocumentValue.u64 5))] =
      some (DocumentItem.single (DocumentValue.u64 5)) := by
  constructor
  · decide
  · decide

/-- C9 as amended: provided no shadow key of a configured field collides
with an existing field name, `correct_doc_fields` leaves every existing
field unchanged and only inserts shadow entries — one reachable per
configured text field present with text content; a single-valued non-text
field yields none, and a multi-valued field with no text values yields
none (in particular no empty `Multi` shadow entry is ever inserted). -/
theorem claim_c9 (correct : String → Nat → String) (hashFn : String → Nat)
    (doc : Document) (indexedTextFields : List String)
    (hfresh : ∀ t ∈ indexedTextFields, shadowKey hashFn t ∉ docKeys doc) :
    (∀ k, k ∈ docKeys doc →
      getAssoc k (correct_doc_fields correct hashFn doc indexedTextFields).fields =
        getAssoc k doc.fields) ∧
    (∀ k v, k ∉ docKeys doc →
      getAssoc k (correct_doc_fields correct hashFn doc indexedTextFields).fields =
        some v →
      ∃ t ∈ indexedTextFields, k = shadowKey hashFn t ∧ qualifies doc t = true) ∧
    (∀ t ∈ indexedTextFields, qualifies doc t = true →
      (getAssoc (shadowKey hashFn t)
        (correct_doc_fields correct hashFn doc indexedTextFields).fields).isSome =
        true) ∧
    (∀ k vs, k ∉ docKeys doc →
      getAssoc k (correct_doc_fields correct hashFn doc indexedTextFields).fields =
        some (DocumentItem.multi vs) → vs ≠ []) := by
  have hmem : ∀ kv, kv ∈ changesFor correct hashFn doc indexedTextFields →
      ∃ t ∈ indexedTextFields, kv.1 = shadowKey hashFn t ∧
        changeOf correct doc t = some kv.2 := by
    intro kv hkv
    rw [changesFor_eq] at hkv
    obtain ⟨t, ht, hchg⟩ := List.mem_filterMap.mp hkv
    obtain ⟨item, hitem, heq⟩ := Option.map_eq_some'.mp hchg
    refine ⟨t, ht, ?_, ?_⟩
    · rw [← heq]
    · rw [hitem, ← heq]
  refine ⟨?_, ?_, ?_, ?_⟩
  · intro k hk
    rw [correct_doc_fields]
    exact getAssoc_foldInsert_of_fresh k _ doc.fields (fun kv hkv => by
      obtain ⟨t, ht, hkey, -⟩ := hmem kv hkv
      rw [hkey]
      intro hcontra
      exact hfresh t ht (hcontra ▸ hk))
  · intro k v hk hget
    rw [correct_doc_fields] at hget
    rcases getAssoc_foldInsert_eq_some k v _ doc.fields hget with hin | hin
    · have : (getAssoc k doc.fields).isSome = true := by rw [hin]; rfl
      rw [getAssoc_eq_none_of_not_memKey k doc.fields hk] at this
      cases this
    · obtain ⟨t, ht, hkey, hchg⟩ := hmem (k, v) hin
      refine ⟨t, ht, hkey, ?_⟩
      rw [← changeOf_isSome_eq_qualifies correct doc t, hchg]
      rfl
  · intro t ht hq
    rw [correct_doc_fields]
    refine isSome_foldInsert_of_memKey _ _ doc.fields ?_
    rw [changesFor_eq]
    have hsome : (changeOf correct doc t).isSome = true := by
      rw [changeOf_isSome_eq_qualifies correct doc t, hq]
    obtain ⟨item, hitem⟩ := Option.isSome_iff_exists.mp hsome
    refine List.mem_map.mpr ⟨(shadowKey hashFn t, item), ?_, rfl⟩
    exact List.mem_filterMap.mpr ⟨t, ht, by rw [hitem]; rfl⟩
  · intro k vs hk hget
    rw [correct_doc_fields] at hget
    rcases getAssoc_foldInsert_eq_some k _ _ doc.fields hget with hin | hin
    · have : (getAssoc k doc.fields).isSome = true := by rw [hin]; rfl
      rw [getAssoc_eq_none_of_not_memKey k doc.fields hk] at this
      cases this
    · obtain ⟨t, -, -, hchg⟩ := hmem (k, DocumentItem.multi vs) hin
      exact changeOf_multi_ne_nil correct doc t vs hchg

/-- C9 (amended) at a concrete input: a fresh shadow entry appears for a
text field and the original field survives untouched. -/
theorem claim_c9_witness :
    (getAssoc "_0"
        (correct_doc_fields (fun s _ => s) (fun _ => 0)
          ⟨[("title", DocumentItem.single (DocumentValue.text "a"))]⟩
          ["title"]).fields).isSome = true :=
  (claim_c9 (fun s _ => s) (fun _ => 0)
    ⟨[("title", DocumentItem.single (DocumentValue.text "a"))]⟩ ["title"]
    (by decide)).2.2.1 "title" (by decide) (by decide)

end LnxEngine
